import Mathlib

/-!
Shallow embedding of the CEDEARs technical-analysis engine
(`src/data_processor/technical_indicators.py` and
`src/data_processor/price_analyzer.py`).

Modelling conventions:
- pandas float Series over closes/volumes are `List ℚ`; NaN entries are the
  `none` of `Option ℚ` (rolling windows shorter than their period are NaN);
- Python `round(x, k)` (round-half-to-even) is `round2` / `round4` / `round0`;
- the wall clock read by `pd.Timestamp.now()` is an explicit `now : ℤ`
  parameter of `analyze`;
- the Pearson correlation used for trend strength needs a real square root, so
  that one field lives in `ℝ`; nothing else leaves `ℚ`.
-/

namespace Cedears

/-- Trailing `n` elements of a list (pandas `Series.tail(n)` / the window that
`iloc[-n:]` would give). -/
def lastN (n : ℕ) (xs : List ℚ) : List ℚ := xs.drop (xs.length - n)

/-- Arithmetic mean of a list, `sum / length` (pandas `Series.mean`). -/
def listMean (l : List ℚ) : ℚ := l.sum / (l.length : ℚ)

/-- Minimum of a nonempty list (pandas `Series.min` over non-NaN values);
junk value 0 on the empty list, which no caller reaches. -/
def listMin : List ℚ → ℚ
  | [] => 0
  | x :: xs => xs.foldl min x

/-- Maximum of a nonempty list (pandas `Series.max`). -/
def listMax : List ℚ → ℚ
  | [] => 0
  | x :: xs => xs.foldl max x

/-- Python `round` to an integer: round half to even (banker's rounding). -/
def pyRound (q : ℚ) : ℤ :=
  if q - ⌊q⌋ < 1/2 then ⌊q⌋
  else if 1/2 < q - ⌊q⌋ then ⌊q⌋ + 1
  else if Even ⌊q⌋ then ⌊q⌋ else ⌊q⌋ + 1

/-- Python `round(x, 2)`. -/
def round2 (q : ℚ) : ℚ := (pyRound (q * 100) : ℚ) / 100

/-- Python `round(x, 4)`. -/
def round4 (q : ℚ) : ℚ := (pyRound (q * 10000) : ℚ) / 10000

/-- Python `round(x, 0)` (the volume means are rounded to 0 decimals). -/
def round0 (q : ℚ) : ℚ := (pyRound q : ℚ)

open Classical in
/-- Python `round` to an integer on a real argument (round half to even). -/
noncomputable def pyRoundR (x : ℝ) : ℤ :=
  if x - ⌊x⌋ < 1/2 then ⌊x⌋
  else if 1/2 < x - ⌊x⌋ then ⌊x⌋ + 1
  else if Even ⌊x⌋ then ⌊x⌋ else ⌊x⌋ + 1

/-- Python `round(x, 3)` on a real argument (trend strength). -/
noncomputable def round3R (x : ℝ) : ℝ := (pyRoundR (x * 1000) : ℝ) / 1000

/-- `prices.iloc[-1]` on a nonempty series (junk 0 on the empty one, which no
caller reaches). -/
def lastD (xs : List ℚ) : ℚ := xs.getD (xs.length - 1) 0

/-- Last entry of a NaN-carrying series. -/
def lastOptD (l : List (Option ℚ)) : Option ℚ := l.getD (l.length - 1) none

/-- The window `prices[i+1-w .. i]` that `Series.rolling(w)` aggregates at
position `i`. -/
def winAt (w : ℕ) (xs : List ℚ) (i : ℕ) : List ℚ := (xs.take (i + 1)).drop (i + 1 - w)

/-- `Series.rolling(window=w)` followed by an aggregation `f`: position `i`
is NaN (`none`) until a full window of `w` points is available, then
`f` of the trailing window. -/
def rollingApply (f : List ℚ → ℚ) (w : ℕ) (xs : List ℚ) : List (Option ℚ) :=
  (List.range xs.length).map (fun i => if i + 1 < w then none else some (f (winAt w xs i)))

/-- `Series.min()` on a NaN-carrying series: NaNs are skipped; all-NaN gives
NaN (`none`). -/
def seriesMin (l : List (Option ℚ)) : Option ℚ :=
  match l.filterMap id with
  | [] => none
  | y :: ys => some (listMin (y :: ys))

/-- `Series.max()` on a NaN-carrying series. -/
def seriesMax (l : List (Option ℚ)) : Option ℚ :=
  match l.filterMap id with
  | [] => none
  | y :: ys => some (listMax (y :: ys))

/-- Recursive step of `Series.ewm(span, adjust=False).mean()`:
`y_i = (1 - alpha) * y_(i-1) + alpha * x_i`. -/
def ewmaAux (alpha : ℚ) : ℚ → List ℚ → List ℚ
  | _, [] => []
  | prev, x :: xs =>
    let y := (1 - alpha) * prev + alpha * x
    y :: ewmaAux alpha y xs

/-- `Series.ewm(span=span, adjust=False).mean()`: seeded by the first value,
smoothing factor `alpha = 2 / (span + 1)`. -/
def ewma (span : ℕ) (xs : List ℚ) : List ℚ :=
  match xs with
  | [] => []
  | x :: rest => x :: ewmaAux (2 / ((span : ℚ) + 1)) x rest

/-- Per-position gains: `delta.where(delta > 0, 0)` where `delta = prices.diff()`.
The leading NaN of `diff` fails the `> 0` test, so position 0 becomes 0. -/
def gains (xs : List ℚ) : List ℚ :=
  (List.range xs.length).map (fun i =>
    if i = 0 then 0 else max (xs.getD i 0 - xs.getD (i - 1) 0) 0)

/-- Per-position losses: `-delta.where(delta < 0, 0)`. -/
def losses (xs : List ℚ) : List ℚ :=
  (List.range xs.length).map (fun i =>
    if i = 0 then 0 else max (xs.getD (i - 1) 0 - xs.getD i 0) 0)

/-- Pointwise `rs = gain / loss; rsi = 100 - 100 / (1 + rs)` under IEEE float
semantics mapped onto `Option ℚ`: NaN inputs give NaN; `g / 0` with `g > 0` is
`+inf`, and `100 - 100 / (1 + inf) = 100`; `0 / 0` is NaN. -/
def rsiCombine (og ol : Option ℚ) : Option ℚ :=
  match og, ol with
  | some g, some l =>
    if l = 0 then (if 0 < g then some 100 else none)
    else some (100 - 100 / (1 + g / l))
  | _, _ => none

/-- `TechnicalIndicators.calculate_rsi`: rolling means of gains and losses over
`period`, combined pointwise into the RSI series. -/
def calculate_rsi (prices : List ℚ) (period : ℕ) : List (Option ℚ) :=
  List.zipWith rsiCombine
    (rollingApply listMean period (gains prices))
    (rollingApply listMean period (losses prices))

/-- Result record of `TechnicalIndicators.calculate_macd`. -/
structure MacdResult where
  macd : List ℚ
  signal : List ℚ
  histogram : List ℚ

/-- `TechnicalIndicators.calculate_macd`: EMAs at spans `fast` and `slow`,
MACD line, signal line (EMA of the MACD line at span `signal`), histogram. -/
def calculate_macd (prices : List ℚ) (fast slow signal : ℕ) : MacdResult :=
  let ema_fast := ewma fast prices
  let ema_slow := ewma slow prices
  let macd := List.zipWith (fun a b => a - b) ema_fast ema_slow
  let signal_line := ewma signal macd
  let histogram := List.zipWith (fun a b => a - b) macd signal_line
  ⟨macd, signal_line, histogram⟩

/-- `TechnicalIndicators.calculate_moving_averages`: for each window the
rolling mean series when the series is long enough, else an empty series.
The dict key `f'MA{period}'` is represented by the window size itself. -/
def calculate_moving_averages (prices : List ℚ) (periods : List ℕ) :
    List (ℕ × List (Option ℚ)) :=
  periods.map (fun p =>
    (p, if p ≤ prices.length then rollingApply listMean p prices else []))

/-- Ordinary least-squares slope of the closes against the index `0..n-1`
(`np.polyfit(x, prices, 1)[0]`). -/
def olsSlope (ys : List ℚ) : ℚ :=
  let n : ℚ := (ys.length : ℚ)
  let sx : ℚ := ((List.range ys.length).map (fun i => (i : ℚ))).sum
  let sy : ℚ := ys.sum
  let sxy : ℚ := (ys.enum.map (fun p => (p.1 : ℚ) * p.2)).sum
  let sxx : ℚ := ((List.range ys.length).map (fun i => (i : ℚ) * (i : ℚ))).sum
  (n * sxy - sx * sy) / (n * sxx - sx * sx)

/-- Absolute Pearson correlation between the index and the closes
(`abs(np.corrcoef(x, prices)[0, 1])`); the square root forces `ℝ`. The
zero-variance degenerate series (NaN in numpy) is out of modelled scope. -/
noncomputable def pearsonStrength (ys : List ℚ) : ℝ :=
  let n : ℚ := (ys.length : ℚ)
  let sx : ℚ := ((List.range ys.length).map (fun i => (i : ℚ))).sum
  let sy : ℚ := ys.sum
  let sxy : ℚ := (ys.enum.map (fun p => (p.1 : ℚ) * p.2)).sum
  let sxx : ℚ := ((List.range ys.length).map (fun i => (i : ℚ) * (i : ℚ))).sum
  let syy : ℚ := (ys.map (fun y => y * y)).sum
  |((n * sxy - sx * sy : ℚ) : ℝ)| /
    Real.sqrt (((n * sxx - sx * sx : ℚ) : ℝ) * ((n * syy - sy * sy : ℚ) : ℝ))

/-- Trend record: `direction`, `strength = |Pearson r|`, `slope`; the
`insufficient_data` branch of the source carries no `slope` key (`none`). -/
structure TrendInfo where
  trend : String
  strength : ℝ
  slope : Option ℚ

/-- `TechnicalIndicators.analyze_trend`. -/
noncomputable def analyze_trend (prices : List ℚ) : TrendInfo :=
  if prices.length < 20 then ⟨"insufficient_data", 0, none⟩
  else
    let slope := olsSlope prices
    ⟨if 1/10 < slope then "bullish" else if slope < -(1/10) then "bearish" else "sideways",
     round3R (pearsonStrength prices),
     some (round4 slope)⟩

/-- Support/resistance record; the short-series branch of the source carries
no `current_price` key (`none`). -/
structure SRInfo where
  support : Option ℚ
  resistance : Option ℚ
  current_price : Option ℚ

/-- `TechnicalIndicators.identify_support_resistance`: below 20 points both
levels are undefined; otherwise the global min of the rolling minima and the
global max of the rolling maxima with window `min(10, n // 4)`. -/
def identify_support_resistance (prices : List ℚ) : SRInfo :=
  if prices.length < 20 then ⟨none, none, none⟩
  else
    let window := min 10 (prices.length / 4)
    ⟨Option.map round2 (seriesMin (rollingApply listMin window prices)),
     Option.map round2 (seriesMax (rollingApply listMax window prices)),
     some (round2 (lastD prices))⟩

/-- The configuration dict consumed by `PriceAnalyzer.analyze` (defaults
14 / 12 / 26 / 9 / [20, 50, 200]). -/
structure Config where
  rsi_period : ℕ
  macd_fast : ℕ
  macd_slow : ℕ
  macd_signal : ℕ
  moving_averages : List ℕ

/-- The price DataFrame: `dates` is the (index) date column, `closes` the
`close` column; `volumes = none` models the absence of a `volume` column. -/
structure PriceData where
  dates : List ℤ
  closes : List ℚ
  volumes : Option (List ℚ)

/-- Volume record; branches without a `recent_average` key carry `none`. -/
structure VolumeInfo where
  average : Option ℚ
  recent_average : Option ℚ
  trend : String

/-- The analysis snapshot dict returned by `PriceAnalyzer.analyze`. The
`timestamp` field holds the `now` the call was made at. -/
structure Snapshot where
  ticker : String
  current_price : Option ℚ
  rsi : Option ℚ
  macd_value : Option ℚ
  macd_signal : Option ℚ
  macd_histogram : Option ℚ
  moving_averages : List (ℕ × Option ℚ)
  trend : TrendInfo
  support_resistance : SRInfo
  momentum_1d : ℚ
  momentum_7d : ℚ
  momentum_30d : ℚ
  volume : VolumeInfo
  timestamp : ℤ

/-- `PriceAnalyzer._calculate_momentum`. -/
def calculate_momentum (prices : List ℚ) (days : ℕ) : ℚ :=
  if prices.length < days + 1 then 0
  else
    let prev := prices.getD (prices.length - (days + 1)) 0
    round2 ((lastD prices - prev) / prev * 100)

/-- `PriceAnalyzer._analyze_volume`. An empty volume column (NaN means in
pandas) is out of modelled scope; every caller passes at least 20 rows. -/
def analyze_volume (price_data : PriceData) : VolumeInfo :=
  match price_data.volumes with
  | none => ⟨none, none, "unknown"⟩
  | some vols =>
    let avg_volume := listMean vols
    let recent_volume := listMean (lastN 5 vols)
    ⟨some (round0 avg_volume), some (round0 recent_volume),
     if avg_volume < recent_volume then "increasing" else "decreasing"⟩

/-- `PriceAnalyzer._empty_analysis`: the fallback snapshot for fewer than 20
points. The source's empty `moving_averages` dict is the empty list. -/
def empty_analysis (ticker : String) (now : ℤ) : Snapshot where
  ticker := ticker
  current_price := none
  rsi := none
  macd_value := none
  macd_signal := none
  macd_histogram := none
  moving_averages := []
  trend := ⟨"insufficient_data", 0, none⟩
  support_resistance := ⟨none, none, none⟩
  momentum_1d := 0
  momentum_7d := 0
  momentum_30d := 0
  volume := ⟨none, none, "unknown"⟩
  timestamp := now

/-- `PriceAnalyzer.analyze`: the fallback below 20 points, otherwise every
indicator is invoked and reduced to its last value. `price_data.empty or
len(price_data) < 20` collapses to the single length test. -/
noncomputable def analyze (cfg : Config) (ticker : String) (price_data : PriceData)
    (now : ℤ) : Snapshot :=
  if price_data.closes.length < 20 then empty_analysis ticker now
  else
    let prices := price_data.closes
    let rsi := calculate_rsi prices cfg.rsi_period
    let macd := calculate_macd prices cfg.macd_fast cfg.macd_slow cfg.macd_signal
    let mas := calculate_moving_averages prices cfg.moving_averages
    { ticker := ticker
      current_price := some (round2 (lastD prices))
      rsi := if rsi.isEmpty then none else Option.map round2 (lastOptD rsi)
      macd_value := if macd.macd.isEmpty then none else some (round2 (lastD macd.macd))
      macd_signal := if macd.signal.isEmpty then none else some (round2 (lastD macd.signal))
      macd_histogram :=
        if macd.histogram.isEmpty then none else some (round2 (lastD macd.histogram))
      moving_averages :=
        mas.map (fun kv => (kv.1, if kv.2.isEmpty then none else Option.map round2 (lastOptD kv.2)))
      trend := analyze_trend prices
      support_resistance := identify_support_resistance prices
      momentum_1d := calculate_momentum prices 1
      momentum_7d := calculate_momentum prices 7
      momentum_30d := calculate_momentum prices 30
      volume := analyze_volume price_data
      timestamp := now }

/-- A snapshot with its generation timestamp erased, to compare two runs of
`analyze` made at different instants. -/
def stripTimestamp (s : Snapshot) : Snapshot := { s with timestamp := 0 }

/-- Formalised from the spec's MalformedInput class: non-monotonic or
duplicate dates, or a negative price, in the input series. -/
def structurallyInvalid (price_data : PriceData) : Prop :=
  ¬ price_data.dates.Chain' (· < ·) ∨ ∃ c ∈ price_data.closes, c < 0

/-- Default configuration of the source. -/
def defaultConfig : Config := ⟨14, 12, 26, 9, [20, 50, 200]⟩

/-- The 20-point close series of the spec's concrete scenario. -/
def specCloses : List ℚ :=
  [100, 102, 101, 105, 103, 108, 107, 110, 112, 109,
   111, 115, 113, 116, 118, 117, 120, 119, 122, 125]

/-- A well-formed 20-row frame (ascending dates, positive closes). -/
def pd20 : PriceData :=
  ⟨[0, 1, 2, 3, 4, 5, 6, 7, 8, 9, 10, 11, 12, 13, 14, 15, 16, 17, 18, 19],
   specCloses, none⟩

/-- A 1-row frame, well below the 20-point threshold. -/
def pdShort : PriceData := ⟨[0], [1], none⟩

/-- A structurally invalid 20-row frame: duplicate final date and a negative
close at position 18. -/
def pdBad : PriceData :=
  ⟨[0, 1, 2, 3, 4, 5, 6, 7, 8, 9, 10, 11, 12, 13, 14, 15, 16, 17, 18, 18],
   [1, 2, 3, 4, 5, 6, 7, 8, 9, 10, 11, 12, 13, 14, 15, 16, 17, 18, -5, 50], none⟩

/-- A 10-row frame: longer than a 5-point window but below the 20-point
threshold. -/
def pd10 : PriceData :=
  ⟨[0, 1, 2, 3, 4, 5, 6, 7, 8, 9],
   [10, 20, 30, 40, 50, 60, 70, 80, 90, 100], none⟩

/-- Configuration asking only for a 5-point moving average. -/
def cfgMA : Config := ⟨14, 12, 26, 9, [5]⟩

/-- Configuration asking for a satisfiable and an unsatisfiable window. -/
def cfgW : Config := ⟨14, 12, 26, 9, [2, 50]⟩

/-- A volume column whose last-5 mean (16) exceeds its full mean (15). -/
def volsV : List ℚ := [10, 10, 10, 10, 10, 40]

/-- A frame carrying the `volsV` volume column. -/
def pdV : PriceData := ⟨[0, 1, 2, 3, 4, 5], [1, 1, 1, 1, 1, 1], some volsV⟩

/-- A 2-row frame whose volume mean 3/2 is not an integer. -/
def pdC : PriceData := ⟨[0, 1], [1, 1], some [1, 2]⟩

/-- A strictly increasing 15-point close series (every loss is 0). -/
def exRsi : List ℚ := [1, 2, 3, 4, 5, 6, 7, 8, 9, 10, 11, 12, 13, 14, 15]

/-- A short close series for the MACD identity witness. -/
def exMacd : List ℚ := [1, 2, 4]

theorem length_rollingApply (f : List ℚ → ℚ) (w : ℕ) (xs : List ℚ) :
    (rollingApply f w xs).length = xs.length := by
  simp [rollingApply]

theorem length_gains (xs : List ℚ) : (gains xs).length = xs.length := by
  simp [gains]

theorem length_losses (xs : List ℚ) : (losses xs).length = xs.length := by
  simp [losses]

theorem getD_of_length_le (l : List (Option ℚ)) (i : ℕ) (h : l.length ≤ i) :
    l.getD i none = none := by
  rw [List.getD_eq_getElem?_getD, List.getElem?_eq_none h]
  rfl

theorem rollingApply_getD (f : List ℚ → ℚ) (w : ℕ) (xs : List ℚ) (i : ℕ)
    (h : i < xs.length) :
    (rollingApply f w xs).getD i none
      = if i + 1 < w then none else some (f (winAt w xs i)) := by
  unfold rollingApply
  rw [List.getD_eq_getElem?_getD, List.getElem?_map, List.getElem?_range h]
  rfl

theorem zipWith_rsiCombine_getD (as bs : List (Option ℚ)) (i : ℕ)
    (ha : i < as.length) (hb : i < bs.length) :
    (List.zipWith rsiCombine as bs).getD i none
      = rsiCombine (as.getD i none) (bs.getD i none) := by
  have hlen : i < (List.zipWith rsiCombine as bs).length := by
    rw [List.length_zipWith]; omega
  rw [List.getD_eq_getElem _ _ hlen, List.getElem_zipWith,
    List.getD_eq_getElem _ _ ha, List.getD_eq_getElem _ _ hb]

theorem length_winAt (w : ℕ) (xs : List ℚ) (i : ℕ) (hi : i < xs.length)
    (hw : w ≤ i + 1) : (winAt w xs i).length = w := by
  simp only [winAt, List.length_drop, List.length_take]
  omega

theorem mem_of_mem_winAt {a : ℚ} {w : ℕ} {xs : List ℚ} {i : ℕ}
    (h : a ∈ winAt w xs i) : a ∈ xs :=
  List.take_subset _ _ (List.drop_subset _ _ h)

theorem getD_mem_winAt {w : ℕ} {xs : List ℚ} {i j : ℕ} (hi : i < xs.length)
    (h1 : i + 1 - w ≤ j) (h2 : j ≤ i) : xs.getD j 0 ∈ winAt w xs i := by
  have hj : j < xs.length := by omega
  have key : (winAt w xs i)[j - (i + 1 - w)]? = some (xs.getD j 0) := by
    unfold winAt
    rw [List.getElem?_drop, show i + 1 - w + (j - (i + 1 - w)) = j by omega,
      List.getElem?_take, if_pos (by omega : j < i + 1),
      List.getD_eq_getElem xs 0 hj, List.getElem?_eq_getElem hj]
  exact List.getElem?_mem key

theorem foldl_min_le_init (l : List ℚ) (a : ℚ) : l.foldl min a ≤ a := by
  induction l generalizing a with
  | nil => simp
  | cons x xs ih =>
    exact le_trans (ih (min a x)) (min_le_left a x)

theorem foldl_min_le_of_mem {b : ℚ} (l : List ℚ) (a : ℚ) (h : b ∈ l) :
    l.foldl min a ≤ b := by
  induction l generalizing a with
  | nil => cases h
  | cons x xs ih =>
    rcases List.mem_cons.mp h with rfl | hb
    · exact le_trans (foldl_min_le_init xs (min a b)) (min_le_right a b)
    · exact ih (min a x) hb

theorem foldl_min_mem (l : List ℚ) (a : ℚ) :
    l.foldl min a = a ∨ l.foldl min a ∈ l := by
  induction l generalizing a with
  | nil => left; rfl
  | cons x xs ih =>
    rcases ih (min a x) with h | h
    · rcases le_total a x with hax | hxa
      · left; rw [List.foldl_cons, h, min_eq_left hax]
      · right; rw [List.foldl_cons, h, min_eq_right hxa]; exact List.mem_cons_self x xs
    · right; exact List.mem_cons_of_mem x h

theorem le_foldl_min {c : ℚ} (l : List ℚ) (a : ℚ) (hc : c ≤ a)
    (h : ∀ b ∈ l, c ≤ b) : c ≤ l.foldl min a := by
  induction l generalizing a with
  | nil => exact hc
  | cons x xs ih =>
    exact ih (min a x) (le_min hc (h x (List.mem_cons_self x xs)))
      (fun b hb => h b (List.mem_cons_of_mem x hb))

theorem listMin_le_of_mem {b : ℚ} {l : List ℚ} (h : b ∈ l) : listMin l ≤ b := by
  cases l with
  | nil => cases h
  | cons x xs =>
    rcases List.mem_cons.mp h with rfl | hb
    · exact foldl_min_le_init xs b
    · exact foldl_min_le_of_mem xs x hb

theorem listMin_mem {l : List ℚ} (h : l ≠ []) : listMin l ∈ l := by
  cases l with
  | nil => exact absurd rfl h
  | cons x xs =>
    rcases foldl_min_mem xs x with he | hm
    · rw [listMin, he]; exact List.mem_cons_self x xs
    · exact List.mem_cons_of_mem x hm

theorem le_listMin {c : ℚ} {l : List ℚ} (h : ∀ b ∈ l, c ≤ b) (hne : l ≠ []) :
    c ≤ listMin l := by
  cases l with
  | nil => exact absurd rfl hne
  | cons x xs =>
    exact le_foldl_min xs x (h x (List.mem_cons_self x xs))
      (fun b hb => h b (List.mem_cons_of_mem x hb))

theorem init_le_foldl_max (l : List ℚ) (a : ℚ) : a ≤ l.foldl max a := by
  induction l generalizing a with
  | nil => simp
  | cons x xs ih =>
    exact le_trans (le_max_left a x) (ih (max a x))

theorem mem_le_foldl_max {b : ℚ} (l : List ℚ) (a : ℚ) (h : b ∈ l) :
    b ≤ l.foldl max a := by
  induction l generalizing a with
  | nil => cases h
  | cons x xs ih =>
    rcases List.mem_cons.mp h with rfl | hb
    · exact le_trans (le_max_right a b) (init_le_foldl_max xs (max a b))
    · exact ih (max a x) hb

theorem foldl_max_mem (l : List ℚ) (a : ℚ) :
    l.foldl max a = a ∨ l.foldl max a ∈ l := by
  induction l generalizing a with
  | nil => left; rfl
  | cons x xs ih =>
    rcases ih (max a x) with h | h
    · rcases le_total a x with hax | hxa
      · right; rw [List.foldl_cons, h, max_eq_right hax]; exact List.mem_cons_self x xs
      · left; rw [List.foldl_cons, h, max_eq_left hxa]
    · right; exact List.mem_cons_of_mem x h

theorem foldl_max_le {c : ℚ} (l : List ℚ) (a : ℚ) (hc : a ≤ c)
    (h : ∀ b ∈ l, b ≤ c) : l.foldl max a ≤ c := by
  induction l generalizing a with
  | nil => exact hc
  | cons x xs ih =>
    exact ih (max a x) (max_le hc (h x (List.mem_cons_self x xs)))
      (fun b hb => h b (List.mem_cons_of_mem x hb))

theorem le_listMax_of_mem {b : ℚ} {l : List ℚ} (h : b ∈ l) : b ≤ listMax l := by
  cases l with
  | nil => cases h
  | cons x xs =>
    rcases List.mem_cons.mp h with rfl | hb
    · exact init_le_foldl_max xs b
    · exact mem_le_foldl_max xs x hb

theorem listMax_mem {l : List ℚ} (h : l ≠ []) : listMax l ∈ l := by
  cases l with
  | nil => exact absurd rfl h
  | cons x xs =>
    rcases foldl_max_mem xs x with he | hm
    · rw [listMax, he]; exact List.mem_cons_self x xs
    · exact List.mem_cons_of_mem x hm

theorem listMax_le {c : ℚ} {l : List ℚ} (h : ∀ b ∈ l, b ≤ c) (hne : l ≠ []) :
    listMax l ≤ c := by
  cases l with
  | nil => exact absurd rfl hne
  | cons x xs =>
    exact foldl_max_le xs x (h x (List.mem_cons_self x xs))
      (fun b hb => h b (List.mem_cons_of_mem x hb))

theorem listMean_nonneg {l : List ℚ} (h : ∀ a ∈ l, 0 ≤ a) : 0 ≤ listMean l :=
  div_nonneg (List.sum_nonneg h) (by positivity)

theorem gains_nonneg {xs : List ℚ} : ∀ a ∈ gains xs, 0 ≤ a := by
  intro a ha
  simp only [gains, List.mem_map, List.mem_range] at ha
  obtain ⟨i, _, rfl⟩ := ha
  split
  · exact le_refl 0
  · exact le_max_right _ 0

theorem losses_nonneg {xs : List ℚ} : ∀ a ∈ losses xs, 0 ≤ a := by
  intro a ha
  simp only [losses, List.mem_map, List.mem_range] at ha
  obtain ⟨i, _, rfl⟩ := ha
  split
  · exact le_refl 0
  · exact le_max_right _ 0

theorem mem_filterMap_rollingApply {a : ℚ} {f : List ℚ → ℚ} {w : ℕ} {xs : List ℚ} :
    a ∈ (rollingApply f w xs).filterMap id
      ↔ ∃ i, i < xs.length ∧ w ≤ i + 1 ∧ a = f (winAt w xs i) := by
  constructor
  · intro h
    rw [List.mem_filterMap] at h
    obtain ⟨o, ho, hid⟩ := h
    simp only [rollingApply, List.mem_map, List.mem_range] at ho
    obtain ⟨i, hi, hoi⟩ := ho
    by_cases hw : i + 1 < w
    · rw [if_pos hw] at hoi
      rw [← hoi] at hid
      cases hid
    · rw [if_neg hw] at hoi
      rw [← hoi] at hid
      exact ⟨i, hi, by omega, (Option.some_inj.mp hid).symm⟩
  · rintro ⟨i, hi, hw, rfl⟩
    rw [List.mem_filterMap]
    refine ⟨some (f (winAt w xs i)), ?_, rfl⟩
    simp only [rollingApply, List.mem_map, List.mem_range]
    exact ⟨i, hi, by rw [if_neg (by omega)]⟩

theorem length_ewmaAux (alpha prev : ℚ) (l : List ℚ) :
    (ewmaAux alpha prev l).length = l.length := by
  induction l generalizing prev with
  | nil => rfl
  | cons x xs ih => simp [ewmaAux, ih]

theorem length_ewma (span : ℕ) (l : List ℚ) : (ewma span l).length = l.length := by
  cases l with
  | nil => rfl
  | cons x xs => simp [ewma, length_ewmaAux]

theorem winAt_last (w : ℕ) (xs : List ℚ) (h1 : 1 ≤ xs.length) :
    winAt w xs (xs.length - 1) = lastN w xs := by
  unfold winAt lastN
  rw [show xs.length - 1 + 1 = xs.length by omega, List.take_length]

theorem lastOptD_rollingApply (f : List ℚ → ℚ) (w : ℕ) (xs : List ℚ)
    (h1 : 1 ≤ xs.length) (h2 : w ≤ xs.length) :
    lastOptD (rollingApply f w xs) = some (f (lastN w xs)) := by
  unfold lastOptD
  rw [length_rollingApply, rollingApply_getD f w xs _ (by omega),
    if_neg (by omega), winAt_last w xs h1]

theorem seriesMin_rollingMin (xs : List ℚ) (w : ℕ) (hw : 1 ≤ w)
    (hn : w ≤ xs.length) :
    seriesMin (rollingApply listMin w xs) = some (listMin xs) := by
  have hne : xs ≠ [] := by
    intro h
    rw [h] at hn
    simp at hn
    omega
  have hlow : ∀ a ∈ (rollingApply listMin w xs).filterMap id, listMin xs ≤ a := by
    intro a ha
    obtain ⟨i, hi, hwi, rfl⟩ := mem_filterMap_rollingApply.mp ha
    have hwne : winAt w xs i ≠ [] := by
      intro h
      have := length_winAt w xs i hi hwi
      rw [h] at this
      simp at this
      omega
    exact le_listMin (fun b hb => listMin_le_of_mem (mem_of_mem_winAt hb)) hwne
  have hup : ∃ a ∈ (rollingApply listMin w xs).filterMap id, a ≤ listMin xs := by
    obtain ⟨j, hj, hget⟩ := List.mem_iff_getElem.mp (listMin_mem hne)
    refine ⟨listMin (winAt w xs (max j (w - 1))), ?_, ?_⟩
    · exact mem_filterMap_rollingApply.mpr ⟨max j (w - 1), by omega, by omega, rfl⟩
    · have hmem : xs.getD j 0 ∈ winAt w xs (max j (w - 1)) :=
        getD_mem_winAt (by omega) (by omega) (by omega)
      have := listMin_le_of_mem hmem
      rwa [List.getD_eq_getElem xs 0 hj, hget] at this
  obtain ⟨a0, ha0, ha0le⟩ := hup
  cases hL : (rollingApply listMin w xs).filterMap id with
  | nil => rw [hL] at ha0; cases ha0
  | cons y ys =>
    rw [hL] at ha0 hlow
    have : listMin (y :: ys) = listMin xs := by
      apply le_antisymm
      · exact le_trans (listMin_le_of_mem ha0) ha0le
      · exact le_listMin hlow (by simp)
    simp only [seriesMin, hL]
    rw [this]

theorem seriesMax_rollingMax (xs : List ℚ) (w : ℕ) (hw : 1 ≤ w)
    (hn : w ≤ xs.length) :
    seriesMax (rollingApply listMax w xs) = some (listMax xs) := by
  have hne : xs ≠ [] := by
    intro h
    rw [h] at hn
    simp at hn
    omega
  have hhigh : ∀ a ∈ (rollingApply listMax w xs).filterMap id, a ≤ listMax xs := by
    intro a ha
    obtain ⟨i, hi, hwi, rfl⟩ := mem_filterMap_rollingApply.mp ha
    have hwne : winAt w xs i ≠ [] := by
      intro h
      have := length_winAt w xs i hi hwi
      rw [h] at this
      simp at this
      omega
    exact listMax_le (fun b hb => le_listMax_of_mem (mem_of_mem_winAt hb)) hwne
  have hup : ∃ a ∈ (rollingApply listMax w xs).filterMap id, listMax xs ≤ a := by
    obtain ⟨j, hj, hget⟩ := List.mem_iff_getElem.mp (listMax_mem hne)
    refine ⟨listMax (winAt w xs (max j (w - 1))), ?_, ?_⟩
    · exact mem_filterMap_rollingApply.mpr ⟨max j (w - 1), by omega, by omega, rfl⟩
    · have hmem : xs.getD j 0 ∈ winAt w xs (max j (w - 1)) :=
        getD_mem_winAt (by omega) (by omega) (by omega)
      have := le_listMax_of_mem hmem
      rwa [List.getD_eq_getElem xs 0 hj, hget] at this
  obtain ⟨a0, ha0, ha0le⟩ := hup
  cases hL : (rollingApply listMax w xs).filterMap id with
  | nil => rw [hL] at ha0; cases ha0
  | cons y ys =>
    rw [hL] at ha0 hhigh
    have : listMax (y :: ys) = listMax xs := by
      apply le_antisymm
      · exact listMax_le hhigh (by simp)
      · exact le_trans ha0le (le_listMax_of_mem ha0)
    simp only [seriesMax, hL]
    rw [this]

theorem zipWith_sub_getD (as bs : List ℚ) (i : ℕ) (ha : i < as.length)
    (hb : i < bs.length) :
    (List.zipWith (fun a b => a - b) as bs).getD i 0 = as.getD i 0 - bs.getD i 0 := by
  have hlen : i < (List.zipWith (fun a b => a - b) as bs).length := by
    rw [List.length_zipWith]; omega
  rw [List.getD_eq_getElem _ _ hlen, List.getElem_zipWith,
    List.getD_eq_getElem _ _ ha, List.getD_eq_getElem _ _ hb]

/-- C1: for every price series of length at least 20 with strictly increasing
dates, `analyze` returns a snapshot whose `current_price` field equals the
last closing price of the series rounded to 2 decimal places. -/
theorem claim1_current_price_is_rounded_last_close
    (cfg : Config) (ticker : String) (pd : PriceData) (now : ℤ)
    (hlen : 20 ≤ pd.closes.length) (hdates : pd.dates.Chain' (· < ·)) :
    (analyze cfg ticker pd now).current_price
      = some (round2 (pd.closes.getD (pd.closes.length - 1) 0)) := by
  unfold analyze
  rw [if_neg (by omega)]
  rfl

/-- Witness for C1 at the spec's 20-point scenario series. -/
theorem claim1_witness :
    (analyze defaultConfig "GGAL" pd20 0).current_price
      = some (round2 (pd20.closes.getD (pd20.closes.length - 1) 0)) :=
  claim1_current_price_is_rounded_last_close defaultConfig "GGAL" pd20 0
    (by decide)
    (by simp only [pd20, List.chain'_cons, List.chain'_singleton, and_true]; norm_num)

/-- C2: for every series shorter than 20 points, `analyze` returns the
fallback snapshot: undefined price, RSI and MACD, `insufficient_data` trend
of strength 0 and no slope, undefined support/resistance, zero momentum at
all three horizons, and unknown volume trend; no error is raised (the
embedding is a total function). -/
theorem claim2_short_series_fallback
    (cfg : Config) (ticker : String) (pd : PriceData) (now : ℤ)
    (hlen : pd.closes.length < 20) :
    (analyze cfg ticker pd now).current_price = none ∧
    (analyze cfg ticker pd now).rsi = none ∧
    (analyze cfg ticker pd now).macd_value = none ∧
    (analyze cfg ticker pd now).macd_signal = none ∧
    (analyze cfg ticker pd now).macd_histogram = none ∧
    (analyze cfg ticker pd now).trend = ⟨"insufficient_data", 0, none⟩ ∧
    (analyze cfg ticker pd now).support_resistance = ⟨none, none, none⟩ ∧
    (analyze cfg ticker pd now).momentum_1d = 0 ∧
    (analyze cfg ticker pd now).momentum_7d = 0 ∧
    (analyze cfg ticker pd now).momentum_30d = 0 ∧
    (analyze cfg ticker pd now).volume = ⟨none, none, "unknown"⟩ := by
  unfold analyze
  rw [if_pos hlen]
  exact ⟨rfl, rfl, rfl, rfl, rfl, rfl, rfl, rfl, rfl, rfl, rfl⟩

/-- Witness for C2 at a 1-row frame. -/
theorem claim2_witness :
    (analyze defaultConfig "GGAL" pdShort 0).current_price = none ∧
    (analyze defaultConfig "GGAL" pdShort 0).rsi = none ∧
    (analyze defaultConfig "GGAL" pdShort 0).macd_value = none ∧
    (analyze defaultConfig "GGAL" pdShort 0).macd_signal = none ∧
    (analyze defaultConfig "GGAL" pdShort 0).macd_histogram = none ∧
    (analyze defaultConfig "GGAL" pdShort 0).trend = ⟨"insufficient_data", 0, none⟩ ∧
    (analyze defaultConfig "GGAL" pdShort 0).support_resistance = ⟨none, none, none⟩ ∧
    (analyze defaultConfig "GGAL" pdShort 0).momentum_1d = 0 ∧
    (analyze defaultConfig "GGAL" pdShort 0).momentum_7d = 0 ∧
    (analyze defaultConfig "GGAL" pdShort 0).momentum_30d = 0 ∧
    (analyze defaultConfig "GGAL" pdShort 0).volume = ⟨none, none, "unknown"⟩ :=
  claim2_short_series_fallback defaultConfig "GGAL" pdShort 0 (by decide)

/-- C3 counterexample: two runs of `analyze` over the same inputs but at two
wall-clock instants differ, because the snapshot embeds the generation
timestamp (`pd.Timestamp.now()`); the claim's "identical including the
timestamp" fails. -/
theorem claim3_counterexample :
    analyze defaultConfig "GGAL" pdShort 0 ≠ analyze defaultConfig "GGAL" pdShort 1 := by
  intro h
  have h0 : (analyze defaultConfig "GGAL" pdShort 0).timestamp = 0 := by
    unfold analyze
    rw [if_pos (by decide)]
    rfl
  have h1 : (analyze defaultConfig "GGAL" pdShort 1).timestamp = 1 := by
    unfold analyze
    rw [if_pos (by decide)]
    rfl
  have ht := congrArg Snapshot.timestamp h
  rw [h0, h1] at ht
  exact absurd ht (by decide)

/-- C3 amended: two runs of `analyze` on the same ticker, series and
configuration agree on every field except the timestamp, which records the
wall-clock instant of the call. -/
theorem claim3_amended_deterministic_up_to_timestamp
    (cfg : Config) (ticker : String) (pd : PriceData) (now1 now2 : ℤ) :
    stripTimestamp (analyze cfg ticker pd now1)
      = stripTimestamp (analyze cfg ticker pd now2) := by
  unfold analyze
  by_cases h : pd.closes.length < 20
  · rw [if_pos h, if_pos h]
    rfl
  · rw [if_neg h, if_neg h]
    rfl

/-- C4 counterexample: on a 20-row series with a duplicate date and a negative
close, `analyze` does not fail; it returns an ordinary populated snapshot
(current price defined), because the source performs no structural
validation at all. -/
theorem claim4_counterexample :
    structurallyInvalid pdBad ∧
      (analyze defaultConfig "GGAL" pdBad 0).current_price
        = some (round2 (lastD pdBad.closes)) := by
  refine ⟨Or.inr ⟨-5, by decide, by decide⟩, ?_⟩
  unfold analyze
  rw [if_neg (by decide)]

/-- C4 amended: `analyze` never raises for any input: data-quantity shortfalls
produce the fallback snapshot, and structurally invalid records are not
detected — a series of length at least 20 with non-monotonic or duplicate
dates or negative prices still yields a populated snapshot. -/
theorem claim4_amended_no_validation
    (cfg : Config) (ticker : String) (pd : PriceData) (now : ℤ)
    (hinv : structurallyInvalid pd) (hlen : 20 ≤ pd.closes.length) :
    (analyze cfg ticker pd now).current_price
      = some (round2 (pd.closes.getD (pd.closes.length - 1) 0)) := by
  unfold analyze
  rw [if_neg (by omega)]
  rfl

/-- C5: `calculate_rsi` is total (no exception on a zero rolling mean loss),
every defined RSI value lies in [0, 100], and at any position where the
rolling mean loss is zero and the rolling mean gain is positive the
propagated value is exactly the saturation value 100. -/
theorem claim5_rsi_bounds_and_saturation (prices : List ℚ) (period i : ℕ)
    (hper : 0 < period) :
    (∀ v : ℚ, (calculate_rsi prices period).getD i none = some v →
      0 ≤ v ∧ v ≤ 100) ∧
    (∀ g : ℚ,
      (rollingApply listMean period (losses prices)).getD i none = some 0 →
      (rollingApply listMean period (gains prices)).getD i none = some g →
      0 < g → (calculate_rsi prices period).getD i none = some 100) := by
  constructor
  · intro v hv
    by_cases hi : i < prices.length
    · unfold calculate_rsi at hv
      rw [zipWith_rsiCombine_getD _ _ i
          (by rw [length_rollingApply, length_gains]; omega)
          (by rw [length_rollingApply, length_losses]; omega)] at hv
      rw [rollingApply_getD _ _ _ _ (by rw [length_gains]; omega),
        rollingApply_getD _ _ _ _ (by rw [length_losses]; omega)] at hv
      by_cases hip : i + 1 < period
      · rw [if_pos hip, if_pos hip] at hv
        cases hv
      · rw [if_neg hip, if_neg hip] at hv
        have hg0 : 0 ≤ listMean (winAt period (gains prices) i) :=
          listMean_nonneg (fun a ha => gains_nonneg _ (mem_of_mem_winAt ha))
        have hl0 : 0 ≤ listMean (winAt period (losses prices) i) :=
          listMean_nonneg (fun a ha => losses_nonneg _ (mem_of_mem_winAt ha))
        simp only [rsiCombine] at hv
        by_cases hle : listMean (winAt period (losses prices) i) = 0
        · rw [if_pos hle] at hv
          by_cases hgp : 0 < listMean (winAt period (gains prices) i)
          · rw [if_pos hgp] at hv
            obtain rfl := Option.some_inj.mp hv
            norm_num
          · rw [if_neg hgp] at hv
            cases hv
        · rw [if_neg hle] at hv
          obtain rfl := Option.some_inj.mp hv
          have hlpos : 0 < listMean (winAt period (losses prices) i) :=
            lt_of_le_of_ne hl0 (Ne.symm hle)
          have hrs : 0 ≤ listMean (winAt period (gains prices) i)
              / listMean (winAt period (losses prices) i) :=
            div_nonneg hg0 (le_of_lt hlpos)
          have h1 : (0:ℚ) < 1 + listMean (winAt period (gains prices) i)
              / listMean (winAt period (losses prices) i) := by linarith
          have hdivpos : 0 < 100 / (1 + listMean (winAt period (gains prices) i)
              / listMean (winAt period (losses prices) i)) := by positivity
          have hdivle : 100 / (1 + listMean (winAt period (gains prices) i)
              / listMean (winAt period (losses prices) i)) ≤ 100 := by
            rw [div_le_iff₀ h1]
            nlinarith
          constructor <;> linarith
    · have hnone : (calculate_rsi prices period).getD i none = none := by
        apply getD_of_length_le
        unfold calculate_rsi
        rw [List.length_zipWith, length_rollingApply, length_rollingApply,
          length_gains, length_losses]
        omega
      rw [hnone] at hv
      cases hv
  · intro g hl hg hgpos
    have hi : i < prices.length := by
      by_contra hni
      have hnone : (rollingApply listMean period (losses prices)).getD i none = none :=
        getD_of_length_le _ _ (by rw [length_rollingApply, length_losses]; omega)
      rw [hnone] at hl
      cases hl
    unfold calculate_rsi
    rw [zipWith_rsiCombine_getD _ _ i
        (by rw [length_rollingApply, length_gains]; omega)
        (by rw [length_rollingApply, length_losses]; omega), hg, hl]
    simp only [rsiCombine]
    simp [hgpos]

/-- Witness for C5 at a strictly increasing 15-point series: at position 14
the rolling mean loss is 0, the rolling mean gain is 1, and the RSI
saturates at 100, which lies in [0, 100]. -/
theorem claim5_witness :
    ((0:ℚ) ≤ 100 ∧ (100:ℚ) ≤ 100) ∧
      (calculate_rsi exRsi 14).getD 14 none = some 100 :=
  ⟨(claim5_rsi_bounds_and_saturation exRsi 14 14 (by decide)).1 100
     (by norm_num [calculate_rsi, rsiCombine, rollingApply, listMean, gains,
       losses, winAt, exRsi, List.range_succ]),
   (claim5_rsi_bounds_and_saturation exRsi 14 14 (by decide)).2 1
     (by norm_num [rollingApply, listMean, losses, winAt, exRsi, List.range_succ])
     (by norm_num [rollingApply, listMean, gains, winAt, exRsi, List.range_succ])
     (by norm_num)⟩

/-- C6: for every input series and spans, the histogram of `calculate_macd`
equals the MACD line minus the signal line at every position, the MACD line
is `EMA(fast) - EMA(slow)` of the closes, and the signal line is the EMA of
the MACD line at span `signal`. -/
theorem claim6_macd_histogram_identity (prices : List ℚ) (fast slow signal : ℕ) :
    (calculate_macd prices fast slow signal).macd
        = List.zipWith (fun a b => a - b) (ewma fast prices) (ewma slow prices) ∧
    (calculate_macd prices fast slow signal).signal
        = ewma signal (calculate_macd prices fast slow signal).macd ∧
    ∀ i, i < prices.length →
      (calculate_macd prices fast slow signal).histogram.getD i 0
        = (calculate_macd prices fast slow signal).macd.getD i 0
          - (calculate_macd prices fast slow signal).signal.getD i 0 := by
  refine ⟨rfl, rfl, ?_⟩
  intro i hi
  exact zipWith_sub_getD _ _ i
    (by rw [List.length_zipWith, length_ewma, length_ewma]; omega)
    (by rw [length_ewma, List.length_zipWith, length_ewma, length_ewma]; omega)

/-- Witness for C6 at a 3-point series with spans 2/3/2, position 2. -/
theorem claim6_witness :
    (calculate_macd exMacd 2 3 2).histogram.getD 2 0
      = (calculate_macd exMacd 2 3 2).macd.getD 2 0
        - (calculate_macd exMacd 2 3 2).signal.getD 2 0 :=
  (claim6_macd_histogram_identity exMacd 2 3 2).2.2 2 (by decide)

/-- Witness for C4 at the invalid frame `pdBad`. -/
theorem claim4_witness :
    (analyze defaultConfig "GGAL" pdBad 1).current_price
      = some (round2 (pdBad.closes.getD (pdBad.closes.length - 1) 0)) :=
  claim4_amended_no_validation defaultConfig "GGAL" pdBad 1
    (Or.inr ⟨-5, by decide, by decide⟩) (by decide)

/-- C7 counterexample: for a 10-row series and a configured 5-point window —
a series NOT shorter than the window — the snapshot carries no moving-average
entry at all (the short-series fallback empties the map), instead of the
trailing-5 mean the claim requires for every price series. -/
theorem claim7_counterexample :
    5 ≤ pd10.closes.length ∧
      List.lookup 5 ((analyze cfgMA "GGAL" pd10 0).moving_averages) = none := by
  refine ⟨by decide, ?_⟩
  have h : analyze cfgMA "GGAL" pd10 0 = empty_analysis "GGAL" 0 := by
    unfold analyze
    rw [if_pos (by decide)]
  rw [h]
  rfl

/-- C7 amended: for series of length at least 20, the snapshot's
moving-average map has exactly one entry per configured positive window `w`:
the undefined marker when the series is shorter than `w`, otherwise the mean
of the trailing `w` closes rounded to 2 decimals; for shorter series the map
is empty. -/
theorem claim7_amended_moving_averages
    (cfg : Config) (ticker : String) (pd : PriceData) (now : ℤ)
    (hpos : ∀ w ∈ cfg.moving_averages, 0 < w) :
    (20 ≤ pd.closes.length →
      (analyze cfg ticker pd now).moving_averages
        = cfg.moving_averages.map (fun w =>
            (w, if pd.closes.length < w then none
                else some (round2 (listMean (lastN w pd.closes)))))) ∧
    (pd.closes.length < 20 →
      (analyze cfg ticker pd now).moving_averages = []) := by
  constructor
  · intro hlen
    have hproj : (analyze cfg ticker pd now).moving_averages
        = (calculate_moving_averages pd.closes cfg.moving_averages).map
            (fun kv => (kv.1,
              if kv.2.isEmpty then none else Option.map round2 (lastOptD kv.2))) := by
      unfold analyze
      rw [if_neg (by omega)]
    rw [hproj]
    unfold calculate_moving_averages
    rw [List.map_map]
    apply List.map_congr_left
    intro w hw
    simp only [Function.comp_apply]
    by_cases hcase : w ≤ pd.closes.length
    · rw [if_pos hcase]
      have hne : rollingApply listMean w pd.closes ≠ [] := by
        intro h0
        have hl := length_rollingApply listMean w pd.closes
        rw [h0] at hl
        simp at hl
        omega
      rw [if_neg (by simpa [List.isEmpty_iff] using hne),
        lastOptD_rollingApply _ _ _ (by omega) hcase,
        if_neg (by omega)]
      rfl
    · rw [if_neg hcase, if_pos (show pd.closes.length < w by omega)]
      rfl
  · intro hlen
    unfold analyze
    rw [if_pos hlen]
    rfl

/-- Witness for C7 at a 20-point series with windows 2 (satisfiable) and 50
(longer than the series). -/
theorem claim7_witness :
    (analyze cfgW "GGAL" pd20 0).moving_averages
      = cfgW.moving_averages.map (fun w =>
          (w, if pd20.closes.length < w then none
              else some (round2 (listMean (lastN w pd20.closes))))) :=
  (claim7_amended_moving_averages cfgW "GGAL" pd20 0 (by decide)).1 (by decide)

/-- C8: for every configuration and series of length at least 20 with positive
closes, the snapshot's momentum at horizon `d` in {1, 7, 30} is 0 when the
series has fewer than `d + 1` points, and otherwise equals
`(latest close - close d periods ago) / (close d periods ago) * 100` rounded
to 2 decimals (for horizons 1 and 7 the length test is vacuous at length at
least 20). -/
theorem claim8_momentum
    (cfg : Config) (ticker : String) (pd : PriceData) (now : ℤ)
    (hlen : 20 ≤ pd.closes.length) (hpos : ∀ c ∈ pd.closes, 0 < c) :
    (analyze cfg ticker pd now).momentum_1d
      = round2 ((lastD pd.closes - pd.closes.getD (pd.closes.length - 2) 0)
          / pd.closes.getD (pd.closes.length - 2) 0 * 100) ∧
    (analyze cfg ticker pd now).momentum_7d
      = round2 ((lastD pd.closes - pd.closes.getD (pd.closes.length - 8) 0)
          / pd.closes.getD (pd.closes.length - 8) 0 * 100) ∧
    (analyze cfg ticker pd now).momentum_30d
      = (if pd.closes.length < 31 then 0
         else round2 ((lastD pd.closes - pd.closes.getD (pd.closes.length - 31) 0)
            / pd.closes.getD (pd.closes.length - 31) 0 * 100)) := by
  unfold analyze
  rw [if_neg (by omega)]
  refine ⟨?_, ?_, ?_⟩
  · show calculate_momentum pd.closes 1 = _
    unfold calculate_momentum
    rw [if_neg (by omega)]
  · show calculate_momentum pd.closes 7 = _
    unfold calculate_momentum
    rw [if_neg (by omega)]
  · show calculate_momentum pd.closes 30 = _
    unfold calculate_momentum
    rfl

/-- Witness for C8 at the spec's 20-point scenario series (20 < 31, so the
30-day momentum falls back to 0 there). -/
theorem claim8_witness :
    (analyze defaultConfig "GGAL" pd20 0).momentum_1d
      = round2 ((lastD pd20.closes - pd20.closes.getD (pd20.closes.length - 2) 0)
          / pd20.closes.getD (pd20.closes.length - 2) 0 * 100) ∧
    (analyze defaultConfig "GGAL" pd20 0).momentum_7d
      = round2 ((lastD pd20.closes - pd20.closes.getD (pd20.closes.length - 8) 0)
          / pd20.closes.getD (pd20.closes.length - 8) 0 * 100) ∧
    (analyze defaultConfig "GGAL" pd20 0).momentum_30d
      = (if pd20.closes.length < 31 then 0
         else round2 ((lastD pd20.closes - pd20.closes.getD (pd20.closes.length - 31) 0)
            / pd20.closes.getD (pd20.closes.length - 31) 0 * 100)) :=
  claim8_momentum defaultConfig "GGAL" pd20 0 (by decide) (by decide)

/-- C9 counterexample: with volumes [1, 2] the stored `average` field is the
rounded value 2, not the mean 3/2 the claim states. -/
theorem claim9_counterexample :
    (analyze_volume pdC).average ≠ some (listMean [(1:ℚ), 2]) := by
  have h : (analyze_volume pdC).average = some 2 := by
    norm_num [analyze_volume, pdC, listMean, lastN, round0, pyRound]
  rw [h]
  intro hc
  have := Option.some_inj.mp hc
  norm_num [listMean] at this

/-- C9 amended: with a volume column present and nonempty, `average` and
`recent_average` are the full-series mean and the last-5 mean EACH ROUNDED TO
0 DECIMALS, while the trend compares the unrounded means: increasing exactly
when the last-5 mean strictly exceeds the full mean, ties and all other cases
decreasing; fewer than 5 rows use all rows; without a volume column all
fields are undefined and the trend is unknown. -/
theorem claim9_amended_volume (pd : PriceData) :
    (pd.volumes = none → analyze_volume pd = ⟨none, none, "unknown"⟩) ∧
    (∀ vols : List ℚ, pd.volumes = some vols → vols ≠ [] →
      (analyze_volume pd).average = some (round0 (listMean vols)) ∧
      (analyze_volume pd).recent_average = some (round0 (listMean (lastN 5 vols))) ∧
      ((analyze_volume pd).trend = "increasing"
        ↔ listMean vols < listMean (lastN 5 vols)) ∧
      (listMean (lastN 5 vols) = listMean vols →
        (analyze_volume pd).trend = "decreasing") ∧
      (vols.length ≤ 5 → lastN 5 vols = vols)) := by
  constructor
  · intro h
    unfold analyze_volume
    rw [h]
  · intro vols hsome hne
    have hval : analyze_volume pd
        = ⟨some (round0 (listMean vols)), some (round0 (listMean (lastN 5 vols))),
           if listMean vols < listMean (lastN 5 vols) then "increasing"
           else "decreasing"⟩ := by
      unfold analyze_volume
      rw [hsome]
    rw [hval]
    refine ⟨rfl, rfl, ?_, ?_, ?_⟩
    · show (if listMean vols < listMean (lastN 5 vols) then "increasing"
          else "decreasing") = "increasing" ↔ listMean vols < listMean (lastN 5 vols)
      by_cases h : listMean vols < listMean (lastN 5 vols)
      · rw [if_pos h]
        simp [h]
      · rw [if_neg h]
        constructor
        · intro hc
          exact absurd hc (by decide)
        · intro hc
          exact absurd hc h
    · intro heq
      show (if listMean vols < listMean (lastN 5 vols) then "increasing"
          else "decreasing") = "decreasing"
      rw [if_neg (by rw [heq]; exact lt_irrefl _)]
    · intro h5
      unfold lastN
      rw [Nat.sub_eq_zero_of_le h5, List.drop_zero]

/-- Witness for C9 at the `volsV` column: mean 15, last-5 mean 16, so the
stored averages are the rounded means and the trend is increasing. -/
theorem claim9_witness :
    (analyze_volume pdV).average = some (round0 (listMean volsV)) ∧
    (analyze_volume pdV).trend = "increasing" := by
  have h := (claim9_amended_volume pdV).2 volsV rfl (by decide)
  exact ⟨h.1, h.2.2.1.mpr (by norm_num [listMean, lastN, volsV])⟩

/-- C10: for every series of length at least 20, the support returned by
`identify_support_resistance` equals the global minimum of the closes rounded
to 2 decimals and the resistance the global maximum rounded to 2 decimals:
the min-of-rolling-mins / max-of-rolling-maxes construction with window
`min(10, n / 4)` reduces to the series-wide extremes. -/
theorem claim10_support_resistance_are_global_extremes (prices : List ℚ)
    (hlen : 20 ≤ prices.length) :
    (identify_support_resistance prices).support = some (round2 (listMin prices)) ∧
    (identify_support_resistance prices).resistance = some (round2 (listMax prices)) := by
  have hw1 : 1 ≤ min 10 (prices.length / 4) := by omega
  have hw2 : min 10 (prices.length / 4) ≤ prices.length := by omega
  unfold identify_support_resistance
  rw [if_neg (by omega)]
  constructor
  · show Option.map round2
        (seriesMin (rollingApply listMin (min 10 (prices.length / 4)) prices)) = _
    rw [seriesMin_rollingMin prices _ hw1 hw2]
    rfl
  · show Option.map round2
        (seriesMax (rollingApply listMax (min 10 (prices.length / 4)) prices)) = _
    rw [seriesMax_rollingMax prices _ hw1 hw2]
    rfl

/-- Witness for C10 at the spec's 20-point scenario series. -/
theorem claim10_witness :
    (identify_support_resistance specCloses).support
        = some (round2 (listMin specCloses)) ∧
      (identify_support_resistance specCloses).resistance
        = some (round2 (listMax specCloses)) :=
  claim10_support_resistance_are_global_extremes specCloses (by decide)

end Cedears
